import Mathlib

/-!
# Verification of the ConMan server multiplexor (src/server.c)

This file gives a shallow embedding, in Lean 4, of the parts of
`src/server.c` that the frozen claims are about: the interest-set
registration loop of `mux_io`, the dispatch (read/write ordering) loop of
`mux_io`, `accept_client`, `schedule_timestamp`, `timestamp_logfiles`,
`reset_console`, `kill_console_reset`, `open_daemon_logfile`, and the
rlimit adjustment in `open_objs`.

Types and helper routines that live in headers or other translation units
of the repository (`server.h`, `common.h`, `tpoll.c`, `util.c`,
`server-obj.c`) are not under `src/`; where a claim depends on them, the
corresponding definition is modelled from the spec's description and its
doc comment says so.
-/

namespace Conman

/-- Connection state of a telnet object (`CONMAN_TELCON_*` in server.h,
which is not in src; the spec lists the states DOWN, PENDING, UP). -/
inductive ConState
  | down
  | pending
  | up
deriving DecidableEq, Repr

/-- The kind of an object together with the kind-specific auxiliary state
that `mux_io` reads: a client's `aux.client.gotSuspend`, a telnet's
`aux.telnet.conState`, a logfile's `aux.logfile.console->name`. -/
inductive ObjKind
  | client (gotSuspend : Bool)
  | serial
  | telnet (conState : ConState)
  | logfile (consoleName : String)
deriving DecidableEq, Repr

/-- An entry of the master `conf->objs` list: the fields of `obj_t` that
`server.c` reads.  `bufInPtr = bufOutPtr` encodes an empty output buffer
(the C compares the two ring-buffer pointers).  `id` is the stable object
identity (list position) used to name objects in event traces. -/
structure Obj where
  id : Nat
  name : String
  fd : Int
  bufInPtr : Nat
  bufOutPtr : Nat
  gotEOF : Bool
  gotReset : Bool
  kind : ObjKind
deriving DecidableEq, Repr

/-- `is_client_obj` from server.h (type test on the object). -/
def is_client_obj (o : Obj) : Bool :=
  match o.kind with
  | ObjKind.client _ => true
  | _ => false

/-- `is_serial_obj`. -/
def is_serial_obj (o : Obj) : Bool :=
  match o.kind with
  | ObjKind.serial => true
  | _ => false

/-- `is_telnet_obj`. -/
def is_telnet_obj (o : Obj) : Bool :=
  match o.kind with
  | ObjKind.telnet _ => true
  | _ => false

/-- `is_logfile_obj`. -/
def is_logfile_obj (o : Obj) : Bool :=
  match o.kind with
  | ObjKind.logfile _ => true
  | _ => false

/-- `obj->aux.telnet.conState`; only read under an `is_telnet_obj` guard in
the C, so the value returned for other kinds is immaterial. -/
def telState (o : Obj) : ConState :=
  match o.kind with
  | ObjKind.telnet s => s
  | _ => ConState.down

/-- `obj->aux.client.gotSuspend`; only read under an `is_client_obj` guard. -/
def clientSuspend (o : Obj) : Bool :=
  match o.kind with
  | ObjKind.client s => s
  | _ => false

/-- The event bits of `poll(2)` that `server.c` uses: POLLIN, POLLOUT,
POLLERR, POLLHUP, as a record of flags. -/
structure PollEv where
  pin : Bool
  pout : Bool
  perr : Bool
  phup : Bool
deriving DecidableEq, Repr

/-- The empty event set. -/
def emptyEv : PollEv := ⟨false, false, false, false⟩

/-- POLLIN alone. -/
def pollin : PollEv := ⟨true, false, false, false⟩

/-- POLLOUT alone. -/
def pollout : PollEv := ⟨false, true, false, false⟩

/-- POLLIN | POLLOUT. -/
def pollinout : PollEv := ⟨true, true, false, false⟩

/-- POLLIN | POLLHUP | POLLERR. -/
def pollreh : PollEv := ⟨true, false, true, true⟩

/-- Bitwise union of two event sets. -/
def evUnion (a b : PollEv) : PollEv :=
  ⟨a.pin || b.pin, a.pout || b.pout, a.perr || b.perr, a.phup || b.phup⟩

/-- Modelled from the spec: `tpoll_set(tp, fd, events)` (tpoll.c is not in
src) unions the given event bits into the interest set for `fd`.  The
interest set is modelled as a map from descriptor to event bits. -/
def tpoll_set (tp : Int → PollEv) (fd : Int) (ev : PollEv) : Int → PollEv :=
  fun f => if f = fd then evUnion (tp f) ev else tp f

/-- Modelled from the spec: `tpoll_is_set(tp, fd, events)` tests whether
any of the given bits fired, here expressed on the fired event set of one
descriptor. -/
def tis (fired mask : PollEv) : Bool :=
  (fired.pin && mask.pin) || (fired.pout && mask.pout) ||
    (fired.perr && mask.perr) || (fired.phup && mask.phup)

/-- Condition of the first `tpoll_set` in mux_io's registration loop
(server.c:538-541): `(is_telnet_obj(obj) && conState == UP) ||
is_serial_obj(obj) || is_client_obj(obj)`. -/
def rdCond (o : Obj) : Bool :=
  (is_telnet_obj o && decide (telState o = ConState.up)) ||
    is_serial_obj o || is_client_obj o

/-- Condition of the second `tpoll_set` (server.c:544-545):
`((bufInPtr != bufOutPtr) || gotEOF) && !(is_client_obj && gotSuspend)`. -/
def wrCond (o : Obj) : Bool :=
  (decide (o.bufInPtr ≠ o.bufOutPtr) || o.gotEOF) &&
    !(is_client_obj o && clientSuspend o)

/-- Condition of the third `tpoll_set` (server.c:548-549):
`is_telnet_obj(obj) && conState == PENDING`. -/
def pendCond (o : Obj) : Bool :=
  is_telnet_obj o && decide (telState o = ConState.pending)

/-- The three guarded `tpoll_set` calls mux_io performs for one object of
the master list (server.c:535-551), including the `fd < 0` skip. -/
def tpoll_set_obj (tp : Int → PollEv) (o : Obj) : Int → PollEv :=
  if o.fd < 0 then tp
  else
    let t1 := if rdCond o then tpoll_set tp o.fd pollin else tp
    let t2 := if wrCond o then tpoll_set t1 o.fd pollout else t1
    if pendCond o then tpoll_set t2 o.fd pollinout else t2

/-- One step of mux_io's first inner loop (server.c:530-552): the
`gotReset` check (which precedes the `fd < 0` skip and records that
`reset_console` is invoked on this object this tick), then the interest
registration.  The state is the interest map paired with the ids of the
objects handed to `reset_console`, in loop order. -/
def mux_prep_obj (st : (Int → PollEv) × List Nat) (o : Obj) : (Int → PollEv) × List Nat :=
  let st1 := if o.gotReset then (st.1, st.2 ++ [o.id]) else st
  if o.fd < 0 then st1 else (tpoll_set_obj st1.1 o, st1.2)

/-- The whole first phase of one mux_io tick (server.c:526-552):
`tpoll_zero` of all fd interest, registration of the listener `ld` with
POLLIN, then the loop over the master list. -/
def mux_prep (ld : Int) (objs : List Obj) : (Int → PollEv) × List Nat :=
  objs.foldl mux_prep_obj (tpoll_set (fun _ => emptyEv) ld pollin, [])

/-- The interest set built by one mux_io tick. -/
def mux_interest (ld : Int) (objs : List Obj) : Int → PollEv :=
  (mux_prep ld objs).1

/-- The objects on which mux_io invokes `reset_console` in one tick. -/
def mux_resets (ld : Int) (objs : List Obj) : List Nat :=
  (mux_prep ld objs).2

theorem evUnion_empty_left (e : PollEv) : evUnion emptyEv e = e := by
  cases e
  simp [evUnion, emptyEv]

theorem tpoll_set_obj_at_ne (tp : Int → PollEv) (o : Obj) (f : Int)
    (h : f ≠ o.fd) : tpoll_set_obj tp o f = tp f := by
  unfold tpoll_set_obj
  split
  · rfl
  · split <;> split <;> split <;> simp [tpoll_set, h]

theorem tpoll_set_obj_at_eq (tp : Int → PollEv) (o : Obj) (h : ¬ o.fd < 0) :
    tpoll_set_obj tp o o.fd =
      evUnion (tp o.fd) ⟨rdCond o || pendCond o, wrCond o || pendCond o, false, false⟩ := by
  unfold tpoll_set_obj
  rw [if_neg h]
  cases hs : tp o.fd with
  | mk a b c d =>
    cases hr : rdCond o <;> cases hw : wrCond o <;> cases hp : pendCond o <;>
      simp [tpoll_set, evUnion, pollin, pollout, pollinout, hs]

theorem mux_prep_obj_fst (st : (Int → PollEv) × List Nat) (o : Obj) :
    (mux_prep_obj st o).1 = tpoll_set_obj st.1 o := by
  unfold mux_prep_obj
  split <;> split <;> simp_all [tpoll_set_obj]

theorem mux_prep_obj_snd (st : (Int → PollEv) × List Nat) (o : Obj) :
    (mux_prep_obj st o).2 = if o.gotReset then st.2 ++ [o.id] else st.2 := by
  unfold mux_prep_obj
  split <;> split <;> simp_all

theorem mux_fold_fst (objs : List Obj) (st : (Int → PollEv) × List Nat) :
    (objs.foldl mux_prep_obj st).1 = objs.foldl tpoll_set_obj st.1 := by
  induction objs generalizing st with
  | nil => rfl
  | cons a t ih =>
    simp only [List.foldl_cons]
    rw [ih, mux_prep_obj_fst]

theorem mux_fold_snd (objs : List Obj) (st : (Int → PollEv) × List Nat) :
    (objs.foldl mux_prep_obj st).2 =
      st.2 ++ (objs.filter (fun o => o.gotReset)).map Obj.id := by
  induction objs generalizing st with
  | nil => simp
  | cons a t ih =>
    simp only [List.foldl_cons]
    rw [ih]
    rw [mux_prep_obj_snd]
    cases hr : a.gotReset <;> simp [List.filter_cons, hr]

theorem fold_set_untouched (objs : List Obj) (tp : Int → PollEv) (f : Int)
    (h : ∀ o ∈ objs, f ≠ o.fd) :
    (objs.foldl tpoll_set_obj tp) f = tp f := by
  induction objs generalizing tp with
  | nil => rfl
  | cons a t ih =>
    simp only [List.foldl_cons]
    rw [ih _ (fun o ho => h o (List.mem_cons_of_mem a ho)),
      tpoll_set_obj_at_ne _ _ _ (h a (List.mem_cons_self a t))]

theorem fold_set_mem (objs : List Obj) (tp : Int → PollEv) (o : Obj)
    (hmem : o ∈ objs) (hnd : (objs.map Obj.fd).Nodup) (hfd : ¬ o.fd < 0)
    (h0 : tp o.fd = emptyEv) :
    (objs.foldl tpoll_set_obj tp) o.fd =
      ⟨rdCond o || pendCond o, wrCond o || pendCond o, false, false⟩ := by
  induction objs generalizing tp with
  | nil => exact absurd hmem (List.not_mem_nil o)
  | cons a t ih =>
    simp only [List.map_cons, List.nodup_cons] at hnd
    rcases List.mem_cons.mp hmem with h | h
    · subst h
      simp only [List.foldl_cons]
      rw [fold_set_untouched]
      · rw [tpoll_set_obj_at_eq _ _ hfd, h0, evUnion_empty_left]
      · intro o2 ho2 hcontra
        exact hnd.1 (hcontra ▸ List.mem_map_of_mem Obj.fd ho2)
    · have hne : a.fd ≠ o.fd := by
        intro hcontra
        exact hnd.1 (hcontra ▸ List.mem_map_of_mem Obj.fd h)
      simp only [List.foldl_cons]
      exact ih _ h hnd.2 (by rw [tpoll_set_obj_at_ne _ _ _ (Ne.symm hne)]; exact h0)

theorem mux_interest_at_obj (ld : Int) (objs : List Obj) (o : Obj)
    (hmem : o ∈ objs) (hnd : (objs.map Obj.fd).Nodup) (hfd : ¬ o.fd < 0)
    (hld : o.fd ≠ ld) :
    mux_interest ld objs o.fd =
      ⟨rdCond o || pendCond o, wrCond o || pendCond o, false, false⟩ := by
  unfold mux_interest mux_prep
  rw [mux_fold_fst]
  exact fold_set_mem objs _ o hmem hnd hfd (by simp [tpoll_set, hld, emptyEv])

theorem mux_interest_neg (ld : Int) (objs : List Obj) (f : Int)
    (hld : 0 ≤ ld) (hf : f < 0) : mux_interest ld objs f = emptyEv := by
  unfold mux_interest mux_prep
  rw [mux_fold_fst]
  have hstep : ∀ (l : List Obj) (tp : Int → PollEv),
      tp f = emptyEv → (l.foldl tpoll_set_obj tp) f = emptyEv := by
    intro l
    induction l with
    | nil => intro tp h0; exact h0
    | cons a t ih =>
      intro tp h0
      simp only [List.foldl_cons]
      apply ih
      by_cases ha : a.fd < 0
      · unfold tpoll_set_obj
        rw [if_pos ha]
        exact h0
      · rw [tpoll_set_obj_at_ne _ _ _ (by omega)]
        exact h0
  apply hstep
  simp only [tpoll_set]
  rw [if_neg (by omega)]

/-- Claim C1.  At the start of every multiplexor tick, for each object of
the master list with fd ≥ 0 (its fd distinct from those of the other
objects and from the listener), the interest set built by the registration
loop of mux_io has: the readable bit exactly when the object is a serial
object, a client object, or a telnet object in state UP or PENDING; and
the writable bit exactly when its output buffer is non-empty or its gotEOF
flag is set and it is not a client with gotSuspend set, or it is a telnet
object in state PENDING. -/
theorem mux_io_registers_interest_bits (ld : Int) (objs : List Obj) (o : Obj)
    (hmem : o ∈ objs) (hnd : (objs.map Obj.fd).Nodup) (hfd : 0 ≤ o.fd)
    (hld : o.fd ≠ ld) :
    ((mux_interest ld objs o.fd).pin = true ↔
      (is_serial_obj o = true ∨ is_client_obj o = true ∨
        (is_telnet_obj o = true ∧ telState o = ConState.up) ∨
        (is_telnet_obj o = true ∧ telState o = ConState.pending))) ∧
    ((mux_interest ld objs o.fd).pout = true ↔
      (((o.bufInPtr ≠ o.bufOutPtr ∨ o.gotEOF = true) ∧
          ¬(is_client_obj o = true ∧ clientSuspend o = true)) ∨
        (is_telnet_obj o = true ∧ telState o = ConState.pending))) := by
  rw [mux_interest_at_obj ld objs o hmem hnd (by omega) hld]
  constructor
  · simp only [rdCond, pendCond, Bool.or_eq_true, Bool.and_eq_true,
      decide_eq_true_eq]
    tauto
  · simp only [wrCond, pendCond, Bool.or_eq_true, Bool.and_eq_true,
      Bool.not_eq_true', Bool.and_eq_false_iff, decide_eq_true_eq,
      Bool.not_eq_true, decide_eq_false_iff_not]
    constructor
    · rintro (⟨hbuf, hsusp⟩ | hpend)
      · left
        constructor
        · rcases hbuf with h | h
          · exact Or.inl h
          · exact Or.inr h
        · rintro ⟨hc, hs⟩
          rcases hsusp with h | h
          · rw [hc] at h; cases h
          · rw [hs] at h; cases h
      · right; exact hpend
    · rintro (⟨hbuf, hsusp⟩ | hpend)
      · left
        refine ⟨?_, ?_⟩
        · rcases hbuf with h | h
          · exact Or.inl h
          · exact Or.inr h
        · cases hc : is_client_obj o
          · exact Or.inl rfl
          · cases hs : clientSuspend o
            · exact Or.inr rfl
            · exact absurd ⟨hc, hs⟩ hsusp
      · right; exact hpend

/-- A sample serial object with an open descriptor. -/
def serialSample : Obj :=
  ⟨0, "tty1", 3, 5, 2, false, false, ObjKind.serial⟩

/-- Witness for claim C1: on a one-object list holding an open serial
object with pending output, the registration loop sets both the readable
and the writable bit. -/
theorem mux_io_registers_interest_bits_witness :
    ((mux_interest 0 [serialSample] serialSample.fd).pin = true ↔
      (is_serial_obj serialSample = true ∨ is_client_obj serialSample = true ∨
        (is_telnet_obj serialSample = true ∧ telState serialSample = ConState.up) ∨
        (is_telnet_obj serialSample = true ∧ telState serialSample = ConState.pending))) ∧
    ((mux_interest 0 [serialSample] serialSample.fd).pout = true ↔
      (((serialSample.bufInPtr ≠ serialSample.bufOutPtr ∨ serialSample.gotEOF = true) ∧
          ¬(is_client_obj serialSample = true ∧ clientSuspend serialSample = true)) ∨
        (is_telnet_obj serialSample = true ∧ telState serialSample = ConState.pending))) :=
  mux_io_registers_interest_bits 0 [serialSample] serialSample
    (by decide) (by decide) (by decide) (by decide)

/-- A logfile object with an open descriptor, an empty output buffer and
gotEOF clear: mux_io registers no interest at all for it. -/
def logfileIdle : Obj :=
  ⟨1, "log1", 4, 7, 7, false, false, ObjKind.logfile "console1"⟩

/-- Counterexample to claim C2 as stated: `logfileIdle` has fd = 4 ≥ 0, is
not a suspended client, yet after the registration loop its descriptor
carries no interest bits at all — an object with fd ≥ 0 that is absent
from the interest set, refuting "fd ≥ 0 ⇔ polled by the loop". -/
theorem interest_iff_fd_nonneg_cex :
    0 ≤ logfileIdle.fd ∧
    is_client_obj logfileIdle = false ∧
    mux_interest 0 [logfileIdle] logfileIdle.fd = emptyEv := by
  refine ⟨by decide, by decide, ?_⟩
  rw [mux_interest_at_obj 0 [logfileIdle] logfileIdle (by decide) (by decide)
    (by decide) (by decide)]
  decide

/-- Claim C2 (amended).  No object with a negative fd is ever in the tick's
interest set (every negative descriptor carries no bits); and an object
with fd ≥ 0 is in the interest set if and only if it satisfies one of the
registration conditions — it is a serial, a client, or a telnet in state UP
or PENDING, or its output buffer is non-empty or gotEOF is set and it is
not a suspended client.  (An idle logfile object has fd ≥ 0 yet is absent,
so "fd ≥ 0 ⇔ polled" does not hold as claimed.) -/
theorem interest_iff_registration_conds (ld : Int) (objs : List Obj) (o : Obj)
    (hldnn : 0 ≤ ld) (hmem : o ∈ objs) (hnd : (objs.map Obj.fd).Nodup)
    (hfd : 0 ≤ o.fd) (hld : o.fd ≠ ld) :
    (∀ f : Int, f < 0 → mux_interest ld objs f = emptyEv) ∧
    (mux_interest ld objs o.fd ≠ emptyEv ↔
      (rdCond o = true ∨ wrCond o = true ∨ pendCond o = true)) := by
  constructor
  · intro f hf
    exact mux_interest_neg ld objs f hldnn hf
  · rw [mux_interest_at_obj ld objs o hmem hnd (by omega) hld]
    cases hr : rdCond o <;> cases hw : wrCond o <;> cases hp : pendCond o <;>
      simp [emptyEv]

/-- A sample suspended client with pending output. -/
def clientSuspSample : Obj :=
  ⟨2, "cli", 5, 3, 1, false, false, ObjKind.client true⟩

/-- Witness for the amended claim C2, instantiated on a suspended client
with pending output: every negative fd carries no bits, and the client is
registered (its readable condition holds). -/
theorem interest_iff_registration_conds_witness :
    (∀ f : Int, f < 0 → mux_interest 0 [clientSuspSample] f = emptyEv) ∧
    (mux_interest 0 [clientSuspSample] clientSuspSample.fd ≠ emptyEv ↔
      (rdCond clientSuspSample = true ∨ wrCond clientSuspSample = true ∨
        pendCond clientSuspSample = true)) :=
  interest_iff_registration_conds 0 [clientSuspSample] clientSuspSample
    (by decide) (by decide) (by decide) (by decide) (by decide)

/-- Modelled from the spec: `RESET_CMD_TIMEOUT` is a constant number of
seconds defined in server.h, which is not in src (the spec calls it the
reset command's time limit); its exact value does not matter to any claim. -/
def RESET_CMD_TIMEOUT : Nat := 60

/-- The externally visible steps `reset_console` performs, in order. -/
inductive ResetAct
  | logNoticeTooLong
  | logNoticeForkFail
  | spawnChild (pid : Nat)
  | setpgidChild (pid : Nat)
  | armTimer (pid : Nat) (ms : Nat)
  | logErrTimerFail
deriving DecidableEq, Repr

/-- `reset_console(console, cmd)` (server.c:773-828).  The outcomes of the
`format_obj_string` expansion, of `fork`, and of `tpoll_timeout_relative`
are oracle booleans; `pid` is the child pid when the fork succeeds.  The
routine clears `gotReset` first (server.c:786), returns early with a
notice if the command expansion fails or fork fails, and otherwise spawns
the child (which `setpgid`s itself into its own process group, mirrored by
the parent) and arms the `kill_console_reset` watchdog for
`RESET_CMD_TIMEOUT * 1000` milliseconds. -/
def reset_console (console : Obj) (fmtOk forkOk timerOk : Bool) (pid : Nat) :
    Obj × List ResetAct :=
  let c := { console with gotReset := false }
  if fmtOk = false then (c, [ResetAct.logNoticeTooLong])
  else if forkOk = false then (c, [ResetAct.logNoticeForkFail])
  else
    (c, [ResetAct.spawnChild pid, ResetAct.setpgidChild pid,
      ResetAct.armTimer pid (RESET_CMD_TIMEOUT * 1000)] ++
      (if timerOk then [] else [ResetAct.logErrTimerFail]))

/-- The signals `kill_console_reset(arg)` sends (server.c:831-850).
`alive` is the outcome of the `kill(pid, 0)` existence probe (true when
the probe succeeds, i.e. the process still exists); `killOk` is whether
`kill(-pid, SIGKILL)` succeeds (it only gates the notice).  Each entry is
the (target, signal) of one `kill` that sends a real signal. -/
def kill_console_reset (alive killOk : Bool) (pid : Nat) : List (Int × Nat) :=
  if alive = false then []
  else if killOk then [(-(pid : Int), 9)] else [(-(pid : Int), 9)]

/-- Claim C10.  `reset_console` clears the console's gotReset flag
unconditionally — also when the command expansion fails or the fork fails,
in which case it returns with only a notice logged (no child spawned, no
timer armed), so the reset is abandoned rather than retried; and the
multiplexor loop performs the gotReset check on every object of the master
list, including objects whose fd is -1, before the fd < 0 skip. -/
theorem reset_clears_flag_and_scans_all
    (console : Obj) (fmtOk forkOk timerOk : Bool) (pid : Nat)
    (ld : Int) (objs : List Obj) (o : Obj)
    (hmem : o ∈ objs) (hreset : o.gotReset = true) :
    ((reset_console console fmtOk forkOk timerOk pid).1.gotReset = false) ∧
    (fmtOk = false →
      (reset_console console fmtOk forkOk timerOk pid).2 = [ResetAct.logNoticeTooLong]) ∧
    (fmtOk = true → forkOk = false →
      (reset_console console fmtOk forkOk timerOk pid).2 = [ResetAct.logNoticeForkFail]) ∧
    o.id ∈ mux_resets ld objs := by
  refine ⟨?_, ?_, ?_, ?_⟩
  · unfold reset_console
    split
    · rfl
    · split <;> rfl
  · intro h
    simp [reset_console, h]
  · intro h1 h2
    simp [reset_console, h1, h2]
  · unfold mux_resets mux_prep
    rw [mux_fold_snd]
    simp only [List.nil_append, List.mem_map]
    exact ⟨o, List.mem_filter.mpr ⟨hmem, by simp [hreset]⟩, rfl⟩

/-- A downed console (fd = -1) with gotReset raised. -/
def downedReset : Obj :=
  ⟨3, "con3", -1, 0, 0, false, true, ObjKind.telnet ConState.down⟩

/-- Witness for claim C10, instantiated on a downed console (fd = -1) with
gotReset set, and on a failing command expansion. -/
theorem reset_clears_flag_and_scans_all_witness :
    ((reset_console downedReset false true true 42).1.gotReset = false) ∧
    (false = false →
      (reset_console downedReset false true true 42).2 = [ResetAct.logNoticeTooLong]) ∧
    (false = true → true = false →
      (reset_console downedReset false true true 42).2 = [ResetAct.logNoticeForkFail]) ∧
    downedReset.id ∈ mux_resets 0 [downedReset] :=
  reset_clears_flag_and_scans_all downedReset false true true 42 0 [downedReset]
    downedReset (by decide) (by decide)

/-- Claim C6.  For every reset-command spawn (expansion and fork both
succeed), `reset_console` arms the `kill_console_reset` watchdog for the
child pid with a delay of RESET_CMD_TIMEOUT seconds (in milliseconds);
when the watchdog fires, if the `kill(pid, 0)` probe still finds the
process it sends exactly one signal — SIGKILL (9) to `-pid`, i.e. to the
child's entire process group — and if the child has already terminated it
sends no signal to any process. -/
theorem reset_watchdog_kills_group
    (console : Obj) (timerOk killOk : Bool) (pid : Nat) :
    (ResetAct.armTimer pid (RESET_CMD_TIMEOUT * 1000) ∈
      (reset_console console true true timerOk pid).2) ∧
    (kill_console_reset true killOk pid = [(-(pid : Int), 9)]) ∧
    (kill_console_reset false killOk pid = []) := by
  refine ⟨?_, ?_, ?_⟩
  · simp [reset_console]
  · unfold kill_console_reset
    split
    · simp_all
    · split <;> rfl
  · rfl

/-- The result of one non-blocking `accept(2)` call on the listening
socket: a new descriptor, or one of the errno outcomes `accept_client`
distinguishes. -/
inductive AcceptRes
  | ok (sd : Nat)
  | eintr
  | eagain
  | ewouldblock
  | econnaborted
  | othererr
deriving DecidableEq, Repr

/-- What one invocation of `accept_client` does overall. -/
inductive AcceptOut
  | spawned (sd : Nat)
  | noneAccepted
  | fatal
deriving DecidableEq, Repr

/-- `accept_client(conf)` (server.c:721-770), driven by the sequence of
outcomes of its successive `accept` calls.  The C loop
`while ((sd = accept(...)) < 0)` retries only on EINTR, returns without
accepting on EAGAIN/EWOULDBLOCK/ECONNABORTED, and dies via `log_err` on
any other error; on the first successful accept it leaves the loop, hands
the descriptor to a new worker thread running `process_client`, and
returns — so at most one connection is accepted per invocation. -/
def accept_client : List AcceptRes → AcceptOut
  | [] => AcceptOut.noneAccepted
  | AcceptRes.ok sd :: _ => AcceptOut.spawned sd
  | AcceptRes.eintr :: rest => accept_client rest
  | AcceptRes.eagain :: _ => AcceptOut.noneAccepted
  | AcceptRes.ewouldblock :: _ => AcceptOut.noneAccepted
  | AcceptRes.econnaborted :: _ => AcceptOut.noneAccepted
  | AcceptRes.othererr :: _ => AcceptOut.fatal

/-- The claim's behavior, following the spec's words: accept as many
pending connections as possible, repeating the non-blocking accept until
it would block, each accepted descriptor handed to a worker. -/
def accept_all_spec : List AcceptRes → List Nat
  | [] => []
  | AcceptRes.ok sd :: rest => sd :: accept_all_spec rest
  | AcceptRes.eintr :: rest => accept_all_spec rest
  | _ => []

/-- Counterexample to claim C3 as stated: with two connections pending
(two accepts would succeed before EAGAIN), `accept_client` hands exactly
one descriptor (7) to a worker and returns, while the claimed
accept-until-EAGAIN behavior would accept both 7 and 8. -/
theorem accept_until_eagain_cex :
    accept_client [AcceptRes.ok 7, AcceptRes.ok 8, AcceptRes.eagain] =
      AcceptOut.spawned 7 ∧
    accept_all_spec [AcceptRes.ok 7, AcceptRes.ok 8, AcceptRes.eagain] = [7, 8] ∧
    (accept_all_spec [AcceptRes.ok 7, AcceptRes.ok 8, AcceptRes.eagain]).length ≠ 1 := by
  decide

/-- Claim C3 (amended).  When the listening socket is readable in a tick,
`accept_client` accepts at most one pending connection: it retries the
non-blocking accept on EINTR and otherwise acts on the first other
outcome, handing the descriptor of a successful accept to a worker thread
(which runs `process_client` to perform the greeting handshake and promote
the socket into a client object) and returning immediately, so a worker is
spawned for sd exactly when the first non-EINTR accept outcome is a
successful accept of sd; remaining pending connections wait for later
ticks. -/
theorem accept_client_single_accept (rs : List AcceptRes) (sd : Nat) :
    accept_client rs = AcceptOut.spawned sd ↔
      (rs.dropWhile (fun r => decide (r = AcceptRes.eintr))).head? =
        some (AcceptRes.ok sd) := by
  induction rs with
  | nil => simp [accept_client]
  | cons r t ih =>
    cases r <;> simp [accept_client, List.dropWhile, ih]

/-- Witness for the amended claim C3: one EINTR retry followed by a
successful accept of descriptor 7 spawns the worker for 7. -/
theorem accept_client_single_accept_witness :
    accept_client [AcceptRes.eintr, AcceptRes.ok 7, AcceptRes.ok 8] =
      AcceptOut.spawned 7 ↔
      (([AcceptRes.eintr, AcceptRes.ok 7, AcceptRes.ok 8].dropWhile
          (fun r => decide (r = AcceptRes.eintr))).head? =
        some (AcceptRes.ok 7)) :=
  accept_client_single_accept [AcceptRes.eintr, AcceptRes.ok 7, AcceptRes.ok 8] 7

/-- How far `open_daemon_logfile` gets: the expansion of the filename
template can fail (name too long), `fopen` can fail, `fileno` can fail,
`get_write_lock` can fail, or everything succeeds. -/
inductive DaemonLogOutcome
  | fmtTooLong
  | openFail
  | filenoFail
  | lockFail
  | okOpen
deriving DecidableEq, Repr

/-- The externally visible actions of `open_daemon_logfile`, in order. -/
inductive DLAct
  | logWarning
  | closeNewLog
  | installNewLog
  | goLogless
  | closeOldLog
  | exitNonzero
deriving DecidableEq, Repr

/-- `open_daemon_logfile(conf)` (server.c:609-697).  Every failure path
issues `log_msg(LOG_WARNING, ...)` and reaches the `err:` label, which
calls `log_set_file(NULL, 0, 0)` (modelled as `goLogless`) and closes the
old logfile stream if one was open, then returns; the lock-failure path
additionally closes the freshly opened stream first.  On success the new
stream is installed with `log_set_file(fp, ...)` and the old one closed.
No path calls `log_err` or `exit`, so `exitNonzero` never occurs. -/
def open_daemon_logfile (outcome : DaemonLogOutcome) (hadOldFp : Bool) : List DLAct :=
  let closeOld := if hadOldFp then [DLAct.closeOldLog] else []
  match outcome with
  | DaemonLogOutcome.okOpen => DLAct.installNewLog :: closeOld
  | DaemonLogOutcome.lockFail =>
      [DLAct.logWarning, DLAct.closeNewLog, DLAct.goLogless] ++ closeOld
  | _ => [DLAct.logWarning, DLAct.goLogless] ++ closeOld

/-- Counterexample to claim C7 as stated: at startup (no old logfile
stream), failure to acquire the write lock on the daemon logfile makes
`open_daemon_logfile` log a warning, close the new stream, drop to
logless operation and return — it does not exit; no `exitNonzero` is among
its actions, so the failure is not treated as fatal. -/
theorem daemon_logfile_fatal_cex :
    open_daemon_logfile DaemonLogOutcome.lockFail false =
      [DLAct.logWarning, DLAct.closeNewLog, DLAct.goLogless] ∧
    DLAct.exitNonzero ∉ open_daemon_logfile DaemonLogOutcome.lockFail false := by
  decide

/-- Claim C7 (amended).  If the daemon log file cannot be opened after
daemonization (including failure to acquire its write lock), the failure
is reported with a warning and the daemon abandons its logfile — it
transitions to logless operation and continues running; the failure is not
fatal and the daemon does not exit with nonzero status. -/
theorem daemon_logfile_failure_not_fatal (outcome : DaemonLogOutcome)
    (hadOldFp : Bool) (h : outcome ≠ DaemonLogOutcome.okOpen) :
    DLAct.exitNonzero ∉ open_daemon_logfile outcome hadOldFp ∧
    DLAct.logWarning ∈ open_daemon_logfile outcome hadOldFp ∧
    DLAct.goLogless ∈ open_daemon_logfile outcome hadOldFp := by
  cases outcome <;> cases hadOldFp <;> first
    | exact absurd rfl h
    | exact ⟨by decide, by decide, by decide⟩

/-- Witness for the amended claim C7: the lock-failure outcome at startup. -/
theorem daemon_logfile_failure_not_fatal_witness :
    DLAct.exitNonzero ∉ open_daemon_logfile DaemonLogOutcome.lockFail false ∧
    DLAct.logWarning ∈ open_daemon_logfile DaemonLogOutcome.lockFail false ∧
    DLAct.goLogless ∈ open_daemon_logfile DaemonLogOutcome.lockFail false :=
  daemon_logfile_failure_not_fatal DaemonLogOutcome.lockFail false (by decide)

/-- An RLIMIT_NOFILE limit pair: soft (`rlim_cur`) and hard (`rlim_max`). -/
structure Rlimit where
  cur : Nat
  rmax : Nat
deriving DecidableEq, Repr

/-- The log calls the rlimit adjustment can make; both are `log_msg`
(which returns), never `log_err` (which exits). -/
inductive RlimLog
  | infoRaised (n : Nat)
  | errSetFailed (n : Nat)
deriving DecidableEq, Repr

/-- The per-object opening action of `open_objs` (server.c:484-496). -/
inductive OpenAct
  | openSerial (id : Nat)
  | connectTelnet (id : Nat)
  | openLogfile (id : Nat) (zeroLogs : Bool)
  | internalError (id : Nat)
deriving DecidableEq, Repr

/-- The open call `open_objs` makes for one object. -/
def openAct (zeroLogs : Bool) (o : Obj) : OpenAct :=
  match o.kind with
  | ObjKind.serial => OpenAct.openSerial o.id
  | ObjKind.telnet _ => OpenAct.connectTelnet o.id
  | ObjKind.logfile _ => OpenAct.openLogfile o.id zeroLogs
  | ObjKind.client _ => OpenAct.internalError o.id

/-- `open_objs(conf)` (server.c:465-498).  First the RLIMIT_NOFILE
adjustment: `n = MAX(rlim_max, 2 * list_count(objs))`; when the soft limit
is below `n`, both soft and hard are set to `n` — logged at INFO on
success and at ERR (via `log_msg`, not fatal) on failure, in which case
the process limit stays as it was.  Then every object in the list is
opened according to its kind, regardless of the rlimit outcome. -/
def open_objs (limit : Rlimit) (setOk zeroLogs : Bool) (objs : List Obj) :
    Rlimit × List RlimLog × List OpenAct :=
  let n := Nat.max limit.rmax (objs.length * 2)
  let adjusted :=
    if limit.cur < n then
      if setOk then (Rlimit.mk n n, [RlimLog.infoRaised n])
      else (limit, [RlimLog.errSetFailed n])
    else (limit, [])
  (adjusted.1, adjusted.2, objs.map (openAct zeroLogs))

/-- Claim C8.  At startup, before opening the objects, the daemon raises
its open-files soft limit to `max(current hard limit, 2 * object count)`
whenever the current soft limit is below that value, logging the
adjustment at INFO; when the raise fails the failure is logged (a
`log_msg` at ERR, not a fatal `log_err`) and the limit is left unchanged,
and in every case — including the failed raise — open_objs proceeds to
open all the objects, so the failure is not fatal to the daemon. -/
theorem open_objs_raises_nofile_limit (limit : Rlimit) (setOk zeroLogs : Bool)
    (objs : List Obj)
    (h : limit.cur < Nat.max limit.rmax (objs.length * 2)) :
    ((open_objs limit setOk zeroLogs objs).1 =
      if setOk then Rlimit.mk (Nat.max limit.rmax (objs.length * 2))
        (Nat.max limit.rmax (objs.length * 2)) else limit) ∧
    ((open_objs limit setOk zeroLogs objs).2.1 =
      if setOk then [RlimLog.infoRaised (Nat.max limit.rmax (objs.length * 2))]
      else [RlimLog.errSetFailed (Nat.max limit.rmax (objs.length * 2))]) ∧
    ((open_objs limit setOk zeroLogs objs).2.2 = objs.map (openAct zeroLogs)) := by
  cases setOk <;> simp [open_objs, h]

/-- Witness for claim C8: soft limit 100 below max(hard 100, 2*51 objects)
= 102 is raised to 102 and logged; the objects are then opened. -/
theorem open_objs_raises_nofile_limit_witness :
    ((open_objs (Rlimit.mk 100 100) true false
        (List.replicate 51 serialSample)).1 =
      if true then Rlimit.mk
        (Nat.max (Rlimit.mk 100 100).rmax ((List.replicate 51 serialSample).length * 2))
        (Nat.max (Rlimit.mk 100 100).rmax ((List.replicate 51 serialSample).length * 2))
      else Rlimit.mk 100 100) ∧
    ((open_objs (Rlimit.mk 100 100) true false
        (List.replicate 51 serialSample)).2.1 =
      if true then [RlimLog.infoRaised
        (Nat.max (Rlimit.mk 100 100).rmax ((List.replicate 51 serialSample).length * 2))]
      else [RlimLog.errSetFailed
        (Nat.max (Rlimit.mk 100 100).rmax ((List.replicate 51 serialSample).length * 2))]) ∧
    ((open_objs (Rlimit.mk 100 100) true false
        (List.replicate 51 serialSample)).2.2 =
      (List.replicate 51 serialSample).map (openAct false)) :=
  open_objs_raises_nofile_limit (Rlimit.mk 100 100) true false
    (List.replicate 51 serialSample) (by decide)

/-- A broken-down local time (`struct tm`) restricted to the fields
`schedule_timestamp` touches.  The calendar is modelled with fixed
86400-second days (no DST or leap seconds); `day` is the day number, so
`mktime` below is the inverse, with C's normalization of out-of-range
minute values being exactly the linear formula. -/
structure Tm where
  day : Nat
  hour : Nat
  minute : Nat
  sec : Nat
deriving DecidableEq, Repr

/-- Modelled from the spec: `get_localtime(&t, &tm)` (util.c, not in src)
fills `tm` from the time `t`, treating `t = 0` as "now" — the spec computes
the first deadline from the current wall clock.  The "now" substitution is
done by the caller here; this function is the plain decomposition. -/
def get_localtime (t : Nat) : Tm :=
  Tm.mk (t / 86400) (t % 86400 / 3600) (t % 3600 / 60) (t % 60)

/-- `mktime(3)` on the modelled calendar: recompose, normalizing
out-of-range minutes arithmetically as C's mktime does. -/
def mktime (tm : Tm) : Nat :=
  tm.day * 86400 + tm.hour * 3600 + tm.minute * 60 + tm.sec

/-- `schedule_timestamp(conf)` (server.c:349-390), as the function from
(`tStampMinutes`, the stored `tStampNext`, the current time) to the new
deadline stored into `conf->tStampNext` and armed as the absolute timer.
With `tStampNext` still 0 the deadline is computed from "now", assuming
timestamps have been scheduled every `m` minutes since midnight; otherwise
it is the previous deadline plus `m` minutes.  `tm_sec` is zeroed in both
branches as in the C. -/
def schedule_timestamp (m tStampNext now : Nat) : Nat :=
  if tStampNext = 0 then
    mktime (Tm.mk ((get_localtime now).day) 0
      ((((get_localtime now).hour * 60 + (get_localtime now).minute) / m + 1) * m) 0)
  else
    mktime (Tm.mk ((get_localtime tStampNext).day) ((get_localtime tStampNext).hour)
      ((get_localtime tStampNext).minute + m) 0)

/-- Local midnight of the day containing `t`. -/
def startOfDay (t : Nat) : Nat := t / 86400 * 86400

/-- The sequence of timestamp deadlines: the first is scheduled at startup
with `tStampNext = 0` from the current time `now`; each later one is
scheduled by `timestamp_logfiles` from the stored previous deadline (the
`now` argument is irrelevant then, and is passed as 0). -/
def tStampSeq (m now : Nat) : Nat → Nat
  | 0 => schedule_timestamp m 0 now
  | k + 1 => schedule_timestamp m (tStampSeq m now k) 0

theorem minutes_of_day (t : Nat) :
    t % 86400 / 3600 * 60 + t % 3600 / 60 = t % 86400 / 60 := by
  omega

theorem lt_div_succ_mul (a b : Nat) (hb : 0 < b) : a < (a / b + 1) * b := by
  calc a = b * (a / b) + a % b := (Nat.div_add_mod a b).symm
    _ < b * (a / b) + b := by
        have := Nat.mod_lt a hb
        omega
    _ = (a / b + 1) * b := by ring

theorem first_deadline (m now : Nat) :
    schedule_timestamp m 0 now =
      startOfDay now + (now % 86400 / 60 / m + 1) * (m * 60) := by
  unfold schedule_timestamp
  rw [if_pos rfl]
  simp only [get_localtime, mktime, startOfDay]
  rw [minutes_of_day]
  ring

theorem later_deadline (m p now : Nat) (hp : p ≠ 0) (h60 : p % 60 = 0) :
    schedule_timestamp m p now = p + m * 60 := by
  simp only [schedule_timestamp, if_neg hp, get_localtime, mktime]
  omega

/-- Claim C4.  With timestamps enabled (m > 0): the first scheduled
deadline is startOfDay + j*(m minutes) for some j ≥ 1, lies strictly after
"now", and is the least multiple of m minutes past local midnight that
does; every subsequent deadline equals the previously intended deadline
plus m minutes and does not depend on the current time (the second branch
of schedule_timestamp ignores `now`); hence the k-th deadline is start of
day plus a whole multiple of m minutes, in closed form
startOfDay + (minutesOfDay/m + 1 + k)*(m*60). -/
theorem timestamp_deadline_regularity (m now : Nat) (hm : 0 < m) :
    (∃ j : Nat, 1 ≤ j ∧ tStampSeq m now 0 = startOfDay now + j * (m * 60)) ∧
    now < tStampSeq m now 0 ∧
    (∀ j : Nat, now < startOfDay now + j * (m * 60) →
      tStampSeq m now 0 ≤ startOfDay now + j * (m * 60)) ∧
    (∀ k : Nat, tStampSeq m now (k + 1) = tStampSeq m now k + m * 60) ∧
    (∀ k : Nat, tStampSeq m now k =
      startOfDay now + (now % 86400 / 60 / m + 1 + k) * (m * 60)) ∧
    (∀ p n1 n2 : Nat, p ≠ 0 →
      schedule_timestamp m p n1 = schedule_timestamp m p n2) := by
  have h0 : tStampSeq m now 0 =
      startOfDay now + (now % 86400 / 60 / m + 1) * (m * 60) :=
    first_deadline m now
  have hm60 : 0 < m * 60 := Nat.mul_pos hm (by norm_num)
  have hclosed : ∀ k : Nat, tStampSeq m now k =
      startOfDay now + (now % 86400 / 60 / m + 1 + k) * (m * 60) := by
    intro k
    induction k with
    | zero => simpa using h0
    | succ k ih =>
      have hpos : 0 < (now % 86400 / 60 / m + 1 + k) * (m * 60) :=
        Nat.mul_pos (Nat.add_pos_left (Nat.succ_pos _) k) hm60
      have hS : startOfDay now = now / 86400 * 1440 * 60 := by
        unfold startOfDay; ring
      have hmul : (now % 86400 / 60 / m + 1 + k) * (m * 60) =
          (now % 86400 / 60 / m + 1 + k) * m * 60 := by ring
      have hne : tStampSeq m now k ≠ 0 := by
        rw [ih]
        omega
      have h60 : tStampSeq m now k % 60 = 0 := by
        rw [ih, hS, hmul]
        omega
      show schedule_timestamp m (tStampSeq m now k) 0 = _
      rw [later_deadline m _ 0 hne h60, ih]
      ring
  have hM : now % 86400 / 60 * 60 ≤ now % 86400 ∧
      now % 86400 < (now % 86400 / 60 + 1) * 60 := by omega
  have hkey : now % 86400 < (now % 86400 / 60 / m + 1) * (m * 60) := by
    have h2 : now % 86400 / 60 < (now % 86400 / 60 / m + 1) * m :=
      lt_div_succ_mul (now % 86400 / 60) m hm
    calc now % 86400 < (now % 86400 / 60 + 1) * 60 := hM.2
      _ ≤ ((now % 86400 / 60 / m + 1) * m) * 60 :=
          Nat.mul_le_mul_right 60 (Nat.succ_le_of_lt h2)
      _ = (now % 86400 / 60 / m + 1) * (m * 60) := by ring
  have hlt : now < tStampSeq m now 0 := by
    have hdm := Nat.div_add_mod now 86400
    calc now = 86400 * (now / 86400) + now % 86400 := hdm.symm
      _ < 86400 * (now / 86400) + (now % 86400 / 60 / m + 1) * (m * 60) :=
          Nat.add_lt_add_left hkey _
      _ = startOfDay now + (now % 86400 / 60 / m + 1) * (m * 60) := by
          unfold startOfDay; ring
      _ = tStampSeq m now 0 := h0.symm
  refine ⟨⟨now % 86400 / 60 / m + 1, Nat.succ_le_succ (Nat.zero_le _), h0⟩,
    hlt, ?_, ?_, hclosed, ?_⟩
  · intro j hj
    have hrest : now % 86400 < j * (m * 60) := by
      have hdm := Nat.div_add_mod now 86400
      have hS : startOfDay now = 86400 * (now / 86400) := by
        unfold startOfDay; ring
      rw [hS] at hj
      omega
    have hjgt : now % 86400 / 60 / m < j := by
      by_contra hcon
      push_neg at hcon
      have hchain : j * (m * 60) ≤ now % 86400 := by
        calc j * (m * 60) ≤ (now % 86400 / 60 / m) * (m * 60) :=
            Nat.mul_le_mul_right (m * 60) hcon
          _ = ((now % 86400 / 60 / m) * m) * 60 := by ring
          _ ≤ (now % 86400 / 60) * 60 :=
            Nat.mul_le_mul_right 60 (Nat.div_mul_le_self (now % 86400 / 60) m)
          _ ≤ now % 86400 := hM.1
      omega
    rw [h0]
    exact Nat.add_le_add_left (Nat.mul_le_mul_right (m * 60) hjgt) _
  · intro k
    rw [hclosed (k + 1), hclosed k]
    ring
  · intro p n1 n2 hp
    simp [schedule_timestamp, hp]

/-- Witness for claim C4 at m = 15 minutes, now = 10:07:30 on day 0
(36450 s): the first deadline is 10:15:00 (36900 s) and each subsequent
one is 15 minutes later. -/
theorem timestamp_deadline_regularity_witness :
    (∃ j : Nat, 1 ≤ j ∧ tStampSeq 15 36450 0 = startOfDay 36450 + j * (15 * 60)) ∧
    36450 < tStampSeq 15 36450 0 ∧
    (∀ j : Nat, 36450 < startOfDay 36450 + j * (15 * 60) →
      tStampSeq 15 36450 0 ≤ startOfDay 36450 + j * (15 * 60)) ∧
    (∀ k : Nat, tStampSeq 15 36450 (k + 1) = tStampSeq 15 36450 k + 15 * 60) ∧
    (∀ k : Nat, tStampSeq 15 36450 k =
      startOfDay 36450 + (36450 % 86400 / 60 / 15 + 1 + k) * (15 * 60)) ∧
    (∀ p n1 n2 : Nat, p ≠ 0 →
      schedule_timestamp 15 p n1 = schedule_timestamp 15 p n2) :=
  timestamp_deadline_regularity 15 36450 (by decide)

/-- Modelled from the spec: `MAX_LINE` is the line-buffer size from
common.h, which is not in src; its exact value is irrelevant to the claims
(only that it is comfortably larger than a timestamp line). -/
def MAX_LINE : Nat := 1024

/-- Carriage return. -/
def crc : Char := Char.ofNat 13

/-- Line feed. -/
def lfc : Char := Char.ofNat 10

/-- The literal "Console [" of the snprintf format string, as characters. -/
def conLit : List Char := ("Console [").data

/-- The literal "] log at " of the snprintf format string. -/
def atLit : List Char := ("] log at ").data

/-- The timestamp line enqueued for one logfile (server.c:408-412),
derived from the C as follows.  `snprintf(buf, MAX_LINE, ...)` stores the
first `MAX_LINE - 1` characters of the full formatted message and a NUL
terminator; `strcpy(&buf[MAX_LINE - 3], "\x0d\x0a")` then stores CR, LF,
NUL at the last three bytes of the buffer; `strlen(buf)` finds the first
NUL.  When the formatted message is shorter than `MAX_LINE - 3`, its own
NUL comes first, so the enqueued bytes are the message itself (the
trailing CR LF sits beyond the NUL and is not included); otherwise the
stored message covers positions up to `MAX_LINE - 3` and its NUL is
overwritten, so the enqueued bytes are the first `MAX_LINE - 3`
characters followed by CR LF.  `pre` and `suf` stand for the
`CONMAN_MSG_PREFIX` and `CONMAN_MSG_SUFFIX` literals of common.h (not in
src). -/
def timestamp_line (pre suf name now : List Char) : List Char :=
  let full := pre ++ conLit ++ name ++ atLit ++ now ++ suf
  let buf0 := full.take (MAX_LINE - 1)
  if buf0.length < MAX_LINE - 3 then buf0
  else buf0.take (MAX_LINE - 3) ++ [crc, lfc]

/-- The console name a logfile object owns (`aux.logfile.console->name`),
read only under an `is_logfile_obj` guard. -/
def logConsoleName (o : Obj) : String :=
  match o.kind with
  | ObjKind.logfile c => c
  | _ => ""

/-- One step of the `timestamp_logfiles` iteration (server.c:405-414):
non-logfile objects are skipped; for a logfile object one line is built
and handed to `write_obj_data` (modelled as appending the pair (object id,
line) to the trace of enqueue calls). -/
def stamp_step (pre suf now : List Char) (acc : List (Nat × List Char)) (o : Obj) :
    List (Nat × List Char) :=
  if is_logfile_obj o then
    acc ++ [(o.id, timestamp_line pre suf (logConsoleName o).data now)]
  else acc

/-- `timestamp_logfiles(conf)` (server.c:393-424): the list of
`write_obj_data` calls made (one per logfile object, in list order)
paired with whether `gotLogs` ends up set — which is exactly when
`schedule_timestamp` is called to arm the next deadline. -/
def timestamp_logfiles (objs : List Obj) (pre suf now : List Char) :
    List (Nat × List Char) × Bool :=
  (objs.foldl (stamp_step pre suf now) [], objs.any (fun o => is_logfile_obj o))

theorem stamp_fold_eq (pre suf now : List Char) (objs : List Obj)
    (acc : List (Nat × List Char)) :
    objs.foldl (stamp_step pre suf now) acc =
      acc ++ objs.filterMap (fun o =>
        if is_logfile_obj o then
          some (o.id, timestamp_line pre suf (logConsoleName o).data now)
        else none) := by
  induction objs generalizing acc with
  | nil => simp
  | cons a t ih =>
    simp only [List.foldl_cons, List.filterMap_cons]
    cases ha : is_logfile_obj a <;>
      simp [stamp_step, ha, ih]

/-- Claim C5.  On each firing of the timestamp timer: (a) the trace of
enqueue calls is exactly one entry per logfile object of the master list,
in order, each carrying the line built from the owning console's name and
the current long time string; (b) if the full formatted line
`<pre>Console [<name>] log at <now><suf>` fits (length below MAX_LINE-3),
the enqueued line is exactly it, and since the suffix ends in CR LF it is
terminated by CR LF (as it also is in the truncated case); (c) the next
timestamp is scheduled exactly when at least one logfile object exists. -/
theorem timestamp_logfiles_one_line_each (objs : List Obj)
    (pre suf now s0 : List Char) (hsuf : suf = s0 ++ [crc, lfc]) :
    ((timestamp_logfiles objs pre suf now).1 = objs.filterMap (fun o =>
      if is_logfile_obj o then
        some (o.id, timestamp_line pre suf (logConsoleName o).data now)
      else none)) ∧
    (∀ name : List Char,
      (∃ l0 : List Char, timestamp_line pre suf name now = l0 ++ [crc, lfc]) ∧
      ((pre ++ conLit ++ name ++ atLit ++ now ++ suf).length < MAX_LINE - 3 →
        timestamp_line pre suf name now =
          pre ++ conLit ++ name ++ atLit ++ now ++ suf)) ∧
    ((timestamp_logfiles objs pre suf now).2 = true ↔
      ∃ o ∈ objs, is_logfile_obj o = true) := by
  refine ⟨?_, ?_, ?_⟩
  · unfold timestamp_logfiles
    exact stamp_fold_eq pre suf now objs []
  · intro name
    constructor
    · dsimp only [timestamp_line]
      split
      · rename_i hshort
        have hfits : (pre ++ conLit ++ name ++ atLit ++ now ++ suf).length ≤
            MAX_LINE - 1 := by
          by_contra hlong
          push_neg at hlong
          rw [List.length_take] at hshort
          omega
        rw [List.take_of_length_le hfits]
        exact ⟨pre ++ conLit ++ name ++ atLit ++ now ++ s0, by
          rw [hsuf]; simp⟩
      · exact ⟨_, rfl⟩
    · intro hfit
      dsimp only [timestamp_line]
      have htake : (pre ++ conLit ++ name ++ atLit ++ now ++ suf).take
          (MAX_LINE - 1) = pre ++ conLit ++ name ++ atLit ++ now ++ suf :=
        List.take_of_length_le (by omega)
      rw [htake, if_pos (by omega)]
  · unfold timestamp_logfiles
    simp [List.any_eq_true]

/-- A second logfile object, owned by console "c2". -/
def logfileSample2 : Obj :=
  ⟨5, "log2", 6, 0, 0, false, false, ObjKind.logfile "c2"⟩

/-- Witness for claim C5 on a list with one serial and two logfile
objects, with the suffix modelled as ".\x0d\x0a": each logfile gets
exactly one line, the line is the full formatted message ending in CR LF,
and the next timestamp is scheduled. -/
theorem timestamp_logfiles_one_line_each_witness :
    ((timestamp_logfiles [serialSample, logfileIdle, logfileSample2]
        [] ['.', crc, lfc] ("12:00".data)).1 =
      [serialSample, logfileIdle, logfileSample2].filterMap (fun o =>
        if is_logfile_obj o then
          some (o.id, timestamp_line [] ['.', crc, lfc]
            (logConsoleName o).data ("12:00".data))
        else none)) ∧
    (∀ name : List Char,
      (∃ l0 : List Char, timestamp_line [] ['.', crc, lfc] name ("12:00".data) =
        l0 ++ [crc, lfc]) ∧
      (([] ++ conLit ++ name ++ atLit ++ ("12:00".data) ++
          ['.', crc, lfc]).length < MAX_LINE - 3 →
        timestamp_line [] ['.', crc, lfc] name ("12:00".data) =
          [] ++ conLit ++ name ++ atLit ++ ("12:00".data) ++ ['.', crc, lfc])) ∧
    ((timestamp_logfiles [serialSample, logfileIdle, logfileSample2]
        [] ['.', crc, lfc] ("12:00".data)).2 = true ↔
      ∃ o ∈ [serialSample, logfileIdle, logfileSample2], is_logfile_obj o = true) :=
  timestamp_logfiles_one_line_each [serialSample, logfileIdle, logfileSample2]
    [] ['.', crc, lfc] ("12:00".data) ['.'] rfl

/-- The calls mux_io's dispatch loop can make on an object, as trace
events carrying the object id. -/
inductive Ev
  | connectTel (id : Nat)
  | readEv (id : Nat)
  | writeEv (id : Nat)
  | deleteEv (id : Nat)
deriving DecidableEq, Repr

/-- The id an event is about. -/
def evId : Ev → Nat
  | Ev.connectTel i => i
  | Ev.readEv i => i
  | Ev.writeEv i => i
  | Ev.deleteEv i => i

/-- Outcome of `read_from_obj` / `write_to_obj` on one object: returned
value ≥ 0 with the fd still open, returned ≥ 0 but the fd now closed
(`obj->fd < 0` afterwards), or returned -1 (buffer flushed; the loop
deletes the object from the master list). -/
inductive RWres
  | ok
  | okClosed
  | err
deriving DecidableEq, Repr

/-- The write half of the dispatch for one object (server.c:593-601):
`write_to_obj` is called when the POLLOUT bit fired, and a -1 return makes
the loop delete the object. -/
def write_phase (fired : Int → PollEv) (wres : Nat → RWres) (o : Obj) : List Ev :=
  if tis (fired o.fd) pollout then
    match wres o.id with
    | RWres.err => [Ev.writeEv o.id, Ev.deleteEv o.id]
    | _ => [Ev.writeEv o.id]
  else []

/-- The dispatch that mux_io's second inner loop performs for one object
(server.c:573-601): objects with fd < 0 are skipped; a PENDING telnet with
either bit fired gets `connect_telnet_obj` and nothing else; otherwise, if
POLLIN, POLLHUP or POLLERR fired, `read_from_obj` runs first — a -1
return deletes the object and a closed fd skips the rest — and only then,
if POLLOUT fired, `write_to_obj` runs. -/
def dispatch_obj (fired : Int → PollEv) (rres wres : Nat → RWres) (o : Obj) :
    List Ev :=
  if o.fd < 0 then []
  else if is_telnet_obj o && tis (fired o.fd) pollinout &&
      decide (telState o = ConState.pending) then
    [Ev.connectTel o.id]
  else if tis (fired o.fd) pollreh then
    match rres o.id with
    | RWres.err => [Ev.readEv o.id, Ev.deleteEv o.id]
    | RWres.okClosed => [Ev.readEv o.id]
    | RWres.ok => Ev.readEv o.id :: write_phase fired wres o
  else write_phase fired wres o

/-- The full trace of one dispatch pass over the master list. -/
def dispatch_tick (fired : Int → PollEv) (rres wres : Nat → RWres)
    (objs : List Obj) : List Ev :=
  (objs.map (dispatch_obj fired rres wres)).flatten

/-- `a` occurs strictly before `b` in the trace `l`. -/
def evBefore (l : List Ev) (a b : Ev) : Prop :=
  ∃ l1 l2, l = l1 ++ a :: l2 ∧ b ∈ l2

theorem evBefore_append_left {s : List Ev} (t : List Ev) {a b : Ev}
    (h : evBefore s a b) : evBefore (s ++ t) a b := by
  obtain ⟨l1, l2, rfl, hb⟩ := h
  exact ⟨l1, l2 ++ t, by simp, by simp [hb]⟩

theorem evBefore_append_right (s : List Ev) {t : List Ev} {a b : Ev}
    (h : evBefore t a b) : evBefore (s ++ t) a b := by
  obtain ⟨l1, l2, rfl, hb⟩ := h
  exact ⟨s ++ l1, l2, by simp, hb⟩

theorem write_phase_id (fired : Int → PollEv) (wres : Nat → RWres) (o : Obj)
    (e : Ev) (he : e ∈ write_phase fired wres o) : evId e = o.id := by
  unfold write_phase at he
  split at he
  · split at he <;> simp only [List.mem_cons, List.mem_singleton,
      List.not_mem_nil, or_false] at he <;>
      rcases he with rfl | rfl <;> rfl
  · exact absurd he (List.not_mem_nil e)

theorem write_phase_no_read (fired : Int → PollEv) (wres : Nat → RWres)
    (o : Obj) (i : Nat) : Ev.readEv i ∉ write_phase fired wres o := by
  unfold write_phase
  split
  · split <;> simp
  · simp

theorem dispatch_obj_id (fired : Int → PollEv) (rres wres : Nat → RWres)
    (o : Obj) (e : Ev) (he : e ∈ dispatch_obj fired rres wres o) :
    evId e = o.id := by
  unfold dispatch_obj at he
  split at he
  · exact absurd he (List.not_mem_nil e)
  split at he
  · simp only [List.mem_singleton] at he
    subst he; rfl
  split at he
  · split at he
    · simp only [List.mem_cons, List.mem_singleton, List.not_mem_nil,
        or_false] at he
      rcases he with rfl | rfl <;> rfl
    · simp only [List.mem_singleton] at he
      subst he; rfl
    · rcases List.mem_cons.mp he with rfl | hw
      · rfl
      · exact write_phase_id fired wres o e hw
  · exact write_phase_id fired wres o e he

theorem dispatch_obj_read_before_write (fired : Int → PollEv)
    (rres wres : Nat → RWres) (o : Obj)
    (hr : Ev.readEv o.id ∈ dispatch_obj fired rres wres o)
    (hw : Ev.writeEv o.id ∈ dispatch_obj fired rres wres o) :
    evBefore (dispatch_obj fired rres wres o) (Ev.readEv o.id) (Ev.writeEv o.id) := by
  by_cases h1 : o.fd < 0
  · rw [dispatch_obj, if_pos h1] at hr
    exact absurd hr (List.not_mem_nil _)
  rw [dispatch_obj, if_neg h1] at hr hw ⊢
  by_cases h2 : (is_telnet_obj o && tis (fired o.fd) pollinout &&
      decide (telState o = ConState.pending)) = true
  · rw [if_pos h2] at hr
    simp at hr
  rw [if_neg h2] at hr hw ⊢
  by_cases h3 : tis (fired o.fd) pollreh = true
  · rw [if_pos h3] at hr hw ⊢
    cases hres : rres o.id
    · simp only [hres] at hr hw ⊢
      refine ⟨[], write_phase fired wres o, rfl, ?_⟩
      rcases List.mem_cons.mp hw with hcon | hwp
      · cases hcon
      · exact hwp
    · simp only [hres] at hw
      simp at hw
    · simp only [hres] at hw
      simp at hw
  · rw [if_neg h3] at hr
    exact absurd hr (write_phase_no_read fired wres o o.id)

theorem dispatch_tick_read_before_write (fired : Int → PollEv)
    (rres wres : Nat → RWres) (objs : List Obj) (o : Obj)
    (hmem : o ∈ objs) (hnd : (objs.map Obj.id).Nodup)
    (hr : Ev.readEv o.id ∈ dispatch_tick fired rres wres objs)
    (hw : Ev.writeEv o.id ∈ dispatch_tick fired rres wres objs) :
    evBefore (dispatch_tick fired rres wres objs)
      (Ev.readEv o.id) (Ev.writeEv o.id) := by
  induction objs with
  | nil => exact absurd hmem (List.not_mem_nil o)
  | cons a t ih =>
    simp only [List.map_cons, List.nodup_cons] at hnd
    have hjoin : dispatch_tick fired rres wres (a :: t) =
        dispatch_obj fired rres wres a ++ dispatch_tick fired rres wres t := by
      unfold dispatch_tick
      simp
    rw [hjoin] at hr hw ⊢
    rcases List.mem_cons.mp hmem with rfl | hmt
    · have hnotl : ∀ e : Ev, evId e = o.id →
          e ∉ dispatch_tick fired rres wres t := by
        intro e hid hin
        unfold dispatch_tick at hin
        rw [List.mem_flatten] at hin
        obtain ⟨l, hl, hel⟩ := hin
        rw [List.mem_map] at hl
        obtain ⟨o2, ho2, rfl⟩ := hl
        have := dispatch_obj_id fired rres wres o2 e hel
        exact hnd.1 (by rw [← hid, this]; exact List.mem_map_of_mem Obj.id ho2)
      have hr2 : Ev.readEv o.id ∈ dispatch_obj fired rres wres o := by
        rcases List.mem_append.mp hr with h | h
        · exact h
        · exact absurd h (hnotl _ rfl)
      have hw2 : Ev.writeEv o.id ∈ dispatch_obj fired rres wres o := by
        rcases List.mem_append.mp hw with h | h
        · exact h
        · exact absurd h (hnotl _ rfl)
      exact evBefore_append_left _
        (dispatch_obj_read_before_write fired rres wres o hr2 hw2)
    · have hne : o.id ≠ a.id := by
        intro hcon
        exact hnd.1 (hcon ▸ List.mem_map_of_mem Obj.id hmt)
      have hnota : ∀ e : Ev, evId e = o.id →
          e ∉ dispatch_obj fired rres wres a := by
        intro e hid hin
        exact hne (by rw [← hid, dispatch_obj_id fired rres wres a e hin])
      have hr2 : Ev.readEv o.id ∈ dispatch_tick fired rres wres t := by
        rcases List.mem_append.mp hr with h | h
        · exact absurd h (hnota _ rfl)
        · exact h
      have hw2 : Ev.writeEv o.id ∈ dispatch_tick fired rres wres t := by
        rcases List.mem_append.mp hw with h | h
        · exact absurd h (hnota _ rfl)
        · exact h
      exact evBefore_append_right _ (ih hmt hnd.2 hr2 hw2)

/-- Claim C9.  Within a single multiplexor tick, for every surviving
object on which both the read condition (POLLIN, POLLHUP or POLLERR
fired) and the write condition (POLLOUT fired) lead to a call — i.e. both
a `read_from_obj` and a `write_to_obj` event for that object appear in
the tick's dispatch trace — the read event occurs strictly before the
write event: reads are dispatched before writes. -/
theorem reads_dispatched_before_writes (fired : Int → PollEv)
    (rres wres : Nat → RWres) (objs : List Obj) (o : Obj)
    (hmem : o ∈ objs) (hnd : (objs.map Obj.id).Nodup)
    (hr : Ev.readEv o.id ∈ dispatch_tick fired rres wres objs)
    (hw : Ev.writeEv o.id ∈ dispatch_tick fired rres wres objs) :
    evBefore (dispatch_tick fired rres wres objs)
      (Ev.readEv o.id) (Ev.writeEv o.id) :=
  dispatch_tick_read_before_write fired rres wres objs o hmem hnd hr hw

/-- A fired-event oracle for the witness: both POLLIN and POLLOUT fired on
descriptor 3, nothing else. -/
def firedSample (f : Int) : PollEv :=
  if f = 3 then pollinout else emptyEv

/-- Witness for claim C9: a serial object whose descriptor fired both
readable and writable, with both calls succeeding, is read before it is
written in the tick's trace. -/
theorem reads_dispatched_before_writes_witness :
    evBefore (dispatch_tick firedSample (fun _ => RWres.ok) (fun _ => RWres.ok)
        [serialSample])
      (Ev.readEv serialSample.id) (Ev.writeEv serialSample.id) :=
  reads_dispatched_before_writes firedSample (fun _ => RWres.ok)
    (fun _ => RWres.ok) [serialSample] serialSample (by decide) (by decide)
    (by decide) (by decide)

end Conman
